import Mathlib

set_option autoImplicit false

/-!
Shallow embedding of the EPREM runtime project manager
(`src/runtime/eprem.py`): the JSON-backed run log (`RunLog`), the
path-orchestration helpers of `Project`, and the lifecycle operations
`Project.rm` / `Project.mv` / `Project.__init__`.

Python dictionaries are modelled as insertion-ordered association lists
with unique keys (the shape `json.load` produces); JSON values are
modelled by the inductive `JVal`.  Fallible Python code (statements that
can raise) is modelled with `Except PyError`.  Filesystem paths are
modelled as strings, with `pathlib` operations translated to
`String.splitOn "/"` / `String.intercalate "/"` on the segment lists.
-/

namespace Eprem

/-- A JSON value as stored in the run-log file: a string leaf or a nested
object (association list from keys to values). -/
inductive JVal where
  | str : String → JVal
  | obj : List (String × JVal) → JVal

/-- The parsed contents of a JSON file: a Python `dict` from `json.load`,
modelled as an insertion-ordered association list. -/
abbrev Contents := List (String × JVal)

/-- A single run record inside the log (also a Python `dict`). -/
abbrev Record := List (String × JVal)

/-- The Python exceptions raised by the embedded code.  `logKeyError`
models `LogKeyError(KeyError)`, `runKeyError` models
`RunKeyError(Exception)` (a distinct class, not related to
`LogKeyError`), and the rest model the corresponding built-in or
module-level exception classes. -/
inductive PyError where
  | logKeyError : String → PyError
  | runKeyError : String → PyError
  | keyError : String → PyError
  | typeError : String → PyError
  | attributeError : String → PyError
  | pathOperationError : String → PyError
  | projectExistsError : String → PyError
  | fileExistsError : String → PyError

/-- Whether an exception is an instance of the `RunKeyError` class.  In
the source, `RunKeyError` extends `Exception` directly while
`LogKeyError` extends `KeyError`, so no `LogKeyError` is a
`RunKeyError`. -/
def PyError.isRunKeyErrorClass : PyError → Bool
  | .runKeyError _ => true
  | _ => false

/-- Python `d[k]` lookup on a dict: the value stored at key `k`, if any.
Keys are unique in a `json.load`ed dict, so first match suffices. -/
def dlookup {α : Type} : List (String × α) → String → Option α
  | [], _ => none
  | (k, v) :: rest, key => if k = key then some v else dlookup rest key

/-- Python `d[k] = v` assignment on a dict: replace in place if `k` is
present (keeping its position), otherwise append at the end. -/
def dinsert {α : Type} : List (String × α) → String → α → List (String × α)
  | [], key, val => [(key, val)]
  | (k, v) :: rest, key, val =>
    if k = key then (k, val) :: rest else (k, v) :: dinsert rest key val

/-- Split a path string into its `pathlib` segments. -/
def pathSegments (p : String) : List String := p.splitOn "/"

/-- `pathlib.Path(dir).parent / target`, the path-rename computation in
`RunLog.mv`: drop the final segment of `dir` and append `target`. -/
def parentJoin (dir target : String) : String :=
  String.intercalate "/" ((pathSegments dir).dropLast ++ [target])

/-- The dict comprehension in `RunLog.mv`:
`\x7bk: v if k != 'directory' else str(directory) for k, v in run.items()\x7d` —
keep every entry of `run` but replace the value under `'directory'` by
the new directory string. -/
def replaceDirectory (run : Record) (newdir : String) : Record :=
  run.map (fun kv => if kv.1 = "directory" then (kv.1, JVal.str newdir) else kv)

/-- `RunLog.append(target, key, metadata)` from `eprem.py` lines 126-137:
look up `contents[target]` (raising `LogKeyError` on a missing key),
then set `record[key] = metadata` and dump the updated contents.
A non-dict record makes the item assignment raise `TypeError`. -/
def append (contents : Contents) (target key : String) (metadata : JVal) :
    Except PyError Contents :=
  match dlookup contents target with
  | none => .error (.logKeyError ("Cannot append to unknown run " ++ target))
  | some (JVal.obj record) =>
      .ok (dinsert contents target (JVal.obj (dinsert record key metadata)))
  | some (JVal.str _) =>
      .error (.typeError "str object does not support item assignment")

/-- The contents of the log file after `RunLog.append` returns or raises:
`self.dump(contents)` runs only after a successful lookup, so on the
error path the file keeps its previous contents (and, `json.dump` being
deterministic, its previous bytes). -/
def fileAfterAppend (contents : Contents) (target key : String) (metadata : JVal) :
    Contents :=
  match append contents target key metadata with
  | .ok c => c
  | .error _ => contents

/-- The per-branch loop of `RunLog.mv` for a branched project: for each
configured branch, read `run[branch]`, recompute its `'directory'`
value, and store the rewritten sub-record under the branch name. -/
def mvBranchLoop (run : Record) (target : String) (acc : Record) :
    List String → Except PyError Record
  | [] => .ok acc
  | b :: rest =>
    match dlookup run b with
    | none => .error (.keyError b)
    | some (JVal.obj old) =>
      match dlookup old "directory" with
      | some (JVal.str d) =>
          mvBranchLoop run target
            (dinsert acc b (JVal.obj (replaceDirectory old (parentJoin d target))))
            rest
      | some (JVal.obj _) => .error (.typeError "argument should be a str")
      | none => .error (.keyError "directory")
    | some (JVal.str _) => .error (.typeError "string indices must be integers")

/-- `RunLog.mv(source, target)` from `eprem.py` lines 139-165: look up
`current[source]` (raising `LogKeyError` on a missing key), drop the
`source` entry, and re-insert the record under `target` with its
`'directory'` value (per branch, when the project is branched) rewritten
to end in `target`. -/
def mv (branches : List String) (current : Contents) (source target : String) :
    Except PyError Contents :=
  match dlookup current source with
  | none => .error (.logKeyError ("Cannot rename unknown run " ++ source))
  | some run =>
    let updated := current.filter (fun kv => decide (kv.1 ≠ source))
    if branches.isEmpty then
      match run with
      | JVal.obj record =>
        match dlookup record "directory" with
        | some (JVal.str d) =>
            .ok (dinsert updated target
              (JVal.obj (replaceDirectory record (parentJoin d target))))
        | some (JVal.obj _) => .error (.typeError "argument should be a str")
        | none => .error (.keyError "directory")
      | JVal.str _ => .error (.typeError "string indices must be integers")
    else
      match run with
      | JVal.obj runRecord =>
        match mvBranchLoop runRecord target [] branches with
        | .error e => .error e
        | .ok rebuilt => .ok (dinsert updated target (JVal.obj rebuilt))
      | JVal.str _ => .error (.typeError "string indices must be integers")

/-- The re-insertion loop of `RunLog.rm` when a branch was supplied:
`for key, info in current.items(): if key in targets: updated[key] =
\x7bk: v for k, v in info.items() if k != branch\x7d`.  Each target's
pre-removal record, stripped of the branch key, is written back into
`updated` — so the targets end up retained, not deleted. -/
def rmStripLoop (targets : List String) (b : String) (acc : Contents) :
    Contents → Except PyError Contents
  | [] => .ok acc
  | (key, info) :: rest =>
    if key ∈ targets then
      match info with
      | JVal.obj m =>
          rmStripLoop targets b
            (dinsert acc key (JVal.obj (m.filter (fun kv => decide (kv.1 ≠ b)))))
            rest
      | JVal.str _ => .error (.attributeError "str object has no attribute items")
    else rmStripLoop targets b acc rest

/-- The body of `RunLog.rm` after the unknown-target check.  The source
reads `if branch not in self._branches: raise LogKeyError(...)`: this
check runs unconditionally, so the default `branch=None` — which is
never an element of the branch tuple — also raises.  Only a supplied
branch name found in the tuple reaches the `if branch:` strip loop. -/
def rmBody (branches : List String) (current : Contents) (targets : List String)
    (branch : Option String) : Except PyError Contents :=
  let updated := current.filter (fun kv => decide (kv.1 ∉ targets))
  match branch with
  | none => .error (.logKeyError "Cannot remove runs from unknown branch None")
  | some b =>
    if b ∈ branches then
      if b ≠ "" then rmStripLoop targets b updated current
      else .ok updated
    else .error (.logKeyError ("Cannot remove runs from unknown branch " ++ b))

/-- `RunLog.rm(*targets, branch=None)` from `eprem.py` lines 167-186.
The unknown-target guard is a walrus assignment,
`if target := next((t for t in targets if t not in current), None)`:
it raises only when the first missing target is truthy, so a missing
empty-string target slips through to the body. -/
def rm (branches : List String) (current : Contents) (targets : List String)
    (branch : Option String) : Except PyError Contents :=
  match targets.find? (fun t => (dlookup current t).isNone) with
  | some t =>
    if t ≠ "" then .error (.logKeyError ("Cannot remove unknown run " ++ t))
    else rmBody branches current targets branch
  | none => rmBody branches current targets branch

/-- The initialization attributes of a project (`_ProjectInit`): branch
names, per-run config/output file names, run-subdirectory name and log
stem.  The lazy cached properties of the source are modelled as plain
fields. -/
structure ProjInit where
  branches : List String
  config : String
  output : String
  rundir : String
  logstem : String
deriving Repr

/-- `_ProjectInit.logname`: the log stem with a `.json` suffix (the stem
never contains a dot in this model, matching the default `runs`). -/
def ProjInit.logname (a : ProjInit) : String := a.logstem ++ ".json"

/-- Python falsy-or-default for an optional string keyword
(`kwargs.get(key) or default`). -/
def orDefaultStr : Option String → String → String
  | none, d => d
  | some s, d => if s = "" then d else s

/-- Python falsy-or-default for the optional branches keyword. -/
def orDefaultList : Option (List String) → List String → List String
  | none, d => d
  | some l, d => if l.isEmpty then d else l

/-- The keyword arguments accepted by `Project.__init__`. -/
structure ProjKwargs where
  branches : Option (List String) := none
  config : Option String := none
  output : Option String := none
  rundir : Option String := none
  logstem : Option String := none

/-- Build a `_ProjectInit` from keyword arguments, applying the
defaults of `_ProjectInit._kwargs` to absent or falsy values. -/
def mkInit (kwargs : ProjKwargs) : ProjInit where
  branches := orDefaultList kwargs.branches []
  config := orDefaultStr kwargs.config "eprem.cfg"
  output := orDefaultStr kwargs.output "eprem.log"
  rundir := orDefaultStr kwargs.rundir "runs"
  logstem := orDefaultStr kwargs.logstem "runs"

/-- `pathlib`-style join of one segment: an empty segment is absorbed
(`Path(root) / '' == Path(root)`). -/
def pjoin (base seg : String) : String :=
  if seg = "" then base else base ++ "/" ++ seg

/-- Every nonempty prefix of a path, rendered back to a string: the
directories `mkdir(parents=True)` brings into existence. -/
def parentChain (p : String) : List String :=
  (List.range (pathSegments p).length).map
    (fun i => String.intercalate "/" ((pathSegments p).take (i + 1)))

/-- Add a path and its parents to the set of existing directories
(`mkdir(parents=True, exist_ok=True)`). -/
def mkdirChain (dirs : List String) (p : String) : List String :=
  (parentChain p).foldl
    (fun acc q => if q ∈ acc then acc else acc ++ [q]) dirs

/-- The filesystem-plus-registry state that `Project.__init__` touches:
the existing directories, the parsed contents of each JSON file, and the
`.eprem-runtime.json` registry mapping project roots to their stored
initialization attributes. -/
structure World where
  dirs : List String
  files : List (String × Contents)
  database : List (String × ProjInit)

/-- `Project._init_attrs`: with keyword arguments on an existing root,
raise `ProjectExistsError`; on an existing root without them, recover
the stored attributes from the registry; on a fresh root, create the
root directory, build the attributes, and rewrite the registry file with
this single entry (the source dumps only `\x7bkey: dict(init)\x7d`). -/
def initAttrs (w : World) (root : String) (kwargs : Option ProjKwargs) :
    Except PyError (World × ProjInit) :=
  if root ∈ w.dirs then
    match kwargs with
    | some _ => .error (.projectExistsError ("The project already exists: " ++ root))
    | none =>
      match dlookup w.database root with
      | some init => .ok (w, init)
      | none => .error (.keyError root)
  else
    let init := mkInit (kwargs.getD {})
    .ok ({ w with dirs := mkdirChain w.dirs root, database := [(root, init)] }, init)

/-- The run-subdirectory of each branch, `attrs.path / branch /
attrs.rundir` for `branch in attrs.branches or ['']`. -/
def branchRunDirs (root : String) (init : ProjInit) : List String :=
  (if init.branches.isEmpty then [""] else init.branches).map
    (fun b => pjoin (pjoin root b) init.rundir)

/-- The key-value pairs `Project.__init__` passes to `RunLog` as
`common`: the configured config and output file names. -/
def commonContents (init : ProjInit) : Contents :=
  [("config", JVal.str init.config), ("output", JVal.str init.output)]

/-- `RunLog.__init__` (`eprem.py` lines 43-65): resolve the path, store
the branches, and `self.dump(common)` — unconditionally rewrite the
backing file so that it holds exactly the supplied common attributes,
whatever it held before. -/
def runLogInit (files : List (String × Contents)) (path : String)
    (common : Contents) : List (String × Contents) :=
  dinsert files path common

/-- `Project.__init__` (`eprem.py` lines 359-380): initialize the
attributes (from input or the registry), create the per-branch
run-subdirectories, then construct the `RunLog` — which rewrites the log
file with the common attributes. -/
def projectInit (w : World) (root : String) (kwargs : Option ProjKwargs) :
    Except PyError (World × ProjInit) :=
  match initAttrs w root kwargs with
  | .error e => .error e
  | .ok (w1, init) =>
    let dirs2 := (branchRunDirs root init).foldl mkdirChain w1.dirs
    .ok ({ w1 with
             dirs := dirs2,
             files := runLogInit w1.files (pjoin root init.logname)
               (commonContents init) },
         init)

/-- The project state that the run-lifecycle operations touch: the
configured branch names, the name of the project root, the set of
existing run directories given as (branch name, run name) pairs — for an
unbranched project the branch component is the root's own name, since
`path.parent.parent.name` walks up to the root — and the parsed log
contents. -/
structure ProjState where
  branches : List String
  rootName : String
  runs : List (String × String)
  logContents : Contents

/-- The branch-name component `path.parent.parent.name` yields for each
run directory: the configured branches, or the root's name for an
unbranched project (the empty branch segment is absorbed by
`pathlib`). -/
def effBranches (p : ProjState) : List String :=
  if p.branches.isEmpty then [p.rootName] else p.branches

/-- The log-update loop of `Project.rm`:
`for branch in branches: self.log.rm(*targets, branch)`.  The call
passes `branch` positionally, so `RunLog.rm` receives it as one more
target and its keyword `branch` stays `None`. -/
def rmLogLoop (branches : List String) (targets : List String) :
    Contents → List String → Contents × Except PyError Unit
  | contents, [] => (contents, .ok ())
  | contents, b :: rest =>
    match rm branches contents (targets ++ [b]) none with
    | .error e => (contents, .error e)
    | .ok c => rmLogLoop branches targets c rest

/-- `Project.rm(run)` (`eprem.py` lines 495-519) with no subset: glob
the run name in each branch's run-subdirectory (modelled for literal
names: a directory matches when it exists), recursively delete every
match, then run the log-update loop over the matched branches.  Returns
the final state together with the outcome of the log updates. -/
def projectRm (p : ProjState) (run : String) : ProjState × Except PyError Unit :=
  let matched := ((effBranches p).filter (fun b => decide ((b, run) ∈ p.runs))).map
    (fun b => (b, run))
  let remaining := p.runs.filter (fun br => decide (br ∉ matched))
  let (c, r) := rmLogLoop p.branches (matched.map (fun br => br.2))
    p.logContents (matched.map (fun br => br.1))
  ({ p with runs := remaining, logContents := c }, r)

/-- The per-pair validation loop of `Project._rename_paths_check`: for
every run-subdirectory (one per branch), the source directory must exist
and the target must not.  Every entry of `runs` is a directory, so the
not-a-directory error of the source is unreachable here. -/
def renameCheckLoop (runs : List (String × String)) (source target : String) :
    List String → Except PyError Unit
  | [] => .ok ()
  | b :: rest =>
    if (b, source) ∈ runs then
      if (b, target) ∈ runs then
        .error (.pathOperationError
          ("Renaming " ++ source ++ " to " ++ target ++ " would overwrite"))
      else renameCheckLoop runs source target rest
    else .error (.pathOperationError ("Cannot rename " ++ source ++ ": does not exist"))

/-- The log-update loop of `Project.mv`:
`for branch in branches: self.log.mv(source, target, branch)`.
`RunLog.mv` accepts only `(self, source, target)`, so the three-argument
call raises `TypeError` before the method body runs; the log file is
never touched. -/
def mvLogLoop (contents : Contents) :
    List String → Contents × Except PyError Unit
  | [] => (contents, .ok ())
  | _b :: _rest =>
    (contents, .error (.typeError "mv() takes 3 positional arguments but 4 were given"))

/-- `Project.mv(source, target)` (`eprem.py` lines 469-493) with no
subset: build one (source, target) directory pair per run-subdirectory,
validate all pairs, rename them all, then run the log-update loop over
the pairs' branch names. -/
def projectMv (p : ProjState) (source target : String) :
    ProjState × Except PyError Unit :=
  let bs := effBranches p
  match renameCheckLoop p.runs source target bs with
  | .error e => (p, .error e)
  | .ok _ =>
    let renamed := p.runs.map
      (fun br => if br.1 ∈ bs ∧ br.2 = source then (br.1, target) else br)
    let (c, r) := mvLogLoop p.logContents bs
    ({ p with runs := renamed, logContents := c }, r)

/-! ### `Project._make_paths` (claim C10)

For the all-or-nothing creation check the filesystem is modelled at the
segment level: a directory is a list of path segments, and the
filesystem is the list of directories that exist. -/

/-- A directory path as its list of segments. -/
abbrev Dir := List String

/-- Every nonempty prefix of a segment path: the directories that
`mkdir(parents=True)` guarantees to exist afterwards. -/
def dirPrefixes (p : Dir) : List Dir :=
  (List.range p.length).map (fun i => p.take (i + 1))

/-- Add one directory to the filesystem if absent. -/
def addDir (fs : List Dir) (q : Dir) : List Dir :=
  if q ∈ fs then fs else fs ++ [q]

/-- `path.mkdir(parents=True)` (without `exist_ok`): raise
`FileExistsError` when the path itself already exists, otherwise create
it along with any missing parents. -/
def mkdirParents (fs : List Dir) (p : Dir) : Except PyError (List Dir) :=
  if p ∈ fs then .error (.fileExistsError (String.intercalate "/" p))
  else .ok ((dirPrefixes p).foldl addDir fs)

/-- `Project._make_paths_check` (`eprem.py` lines 544-553): scan the
whole path set for an already-existing target before returning the
creation action; any hit raises `PathOperationError` with nothing
created. -/
def makePathsCheck (fs : List Dir) (paths : List Dir) : Except PyError Unit :=
  match paths.find? (fun p => decide (p ∈ fs)) with
  | some p =>
      .error (.pathOperationError
        ("Cannot create " ++ String.intercalate "/" p ++ ": already exists"))
  | none => .ok ()

/-- The creation loop of `Project._make_paths`: apply the `mkdir` action
to each path in order. -/
def makePathsLoop (fs : List Dir) : List Dir → Except PyError (List Dir)
  | [] => .ok fs
  | p :: rest =>
    match mkdirParents fs p with
    | .error e => .error e
    | .ok fs1 => makePathsLoop fs1 rest

/-- `Project._make_paths` (`eprem.py` lines 524-542): compute one target
path per run-subdirectory, run the all-or-nothing existence check, then
create every path. -/
def makePaths (fs : List Dir) (rundirs : List Dir) (name : String) :
    Except PyError (List Dir) :=
  let paths := rundirs.map (fun r => r ++ [name])
  match makePathsCheck fs paths with
  | .error e => .error e
  | .ok _ => makePathsLoop fs paths

/-- The filesystem after `Project._make_paths` returns or raises: the
check precedes every `mkdir`, so on the check's error path nothing was
created. -/
def fsAfterMakePaths (fs : List Dir) (rundirs : List Dir) (name : String) :
    List Dir :=
  match makePaths fs rundirs name with
  | .ok fs1 => fs1
  | .error _ => fs

/-- The contents of the log file the given `projectInit` call leaves at
`path` (from the prior files when initialization fails, since nothing
was dumped). -/
def logFileAfterInit (w : World) (root : String) (kwargs : Option ProjKwargs)
    (path : String) : Option Contents :=
  match projectInit w root kwargs with
  | .ok (w1, _) => dlookup w1.files path
  | .error _ => dlookup w.files path

/-! ### Association-list lemmas -/

theorem dlookup_dinsert_self {α : Type} (l : List (String × α)) (k : String) (v : α) :
    dlookup (dinsert l k v) k = some v := by
  induction l with
  | nil => simp [dinsert, dlookup]
  | cons kv rest ih =>
    obtain ⟨k1, v1⟩ := kv
    by_cases h : k1 = k
    · subst h; simp [dinsert, dlookup]
    · simp [dinsert, dlookup, h, ih]

theorem dlookup_dinsert_ne {α : Type} (l : List (String × α)) (k k1 : String) (v : α)
    (h : k1 ≠ k) : dlookup (dinsert l k v) k1 = dlookup l k1 := by
  induction l with
  | nil => simp [dinsert, dlookup, Ne.symm h]
  | cons kv rest ih =>
    obtain ⟨k2, v2⟩ := kv
    by_cases h2 : k2 = k
    · subst h2; simp [dinsert, dlookup, Ne.symm h]
    · simp [dinsert, dlookup, h2, ih]

theorem dlookup_filter_out_mem {α : Type} (l : List (String × α))
    (targets : List String) (k : String) (hk : k ∈ targets) :
    dlookup (l.filter (fun kv => decide (kv.1 ∉ targets))) k = none := by
  induction l with
  | nil => simp [dlookup]
  | cons kv rest ih =>
    by_cases h : kv.1 ∈ targets
    · simpa [List.filter_cons, h] using ih
    · have hne : kv.1 ≠ k := fun e => h (e ▸ hk)
      simpa [List.filter_cons, h, dlookup, hne] using ih

theorem dlookup_filter_out_not_mem {α : Type} (l : List (String × α))
    (targets : List String) (k : String) (hk : k ∉ targets) :
    dlookup (l.filter (fun kv => decide (kv.1 ∉ targets))) k = dlookup l k := by
  induction l with
  | nil => simp
  | cons kv rest ih =>
    obtain ⟨k1, v1⟩ := kv
    by_cases h : k1 ∈ targets
    · have hne : k1 ≠ k := fun e => hk (e ▸ h)
      simpa [List.filter_cons, h, dlookup, hne] using ih
    · by_cases he : k1 = k
      · subst he
        simp [List.filter_cons, h, dlookup]
      · simpa [List.filter_cons, h, dlookup, he] using ih

theorem dlookup_filter_ne_self {α : Type} (l : List (String × α)) (a : String) :
    dlookup (l.filter (fun kv => decide (kv.1 ≠ a))) a = none := by
  induction l with
  | nil => simp [dlookup]
  | cons kv rest ih =>
    by_cases h : kv.1 = a
    · simpa [List.filter_cons, h] using ih
    · simpa [List.filter_cons, h, dlookup] using ih

theorem dlookup_filter_ne_other {α : Type} (l : List (String × α)) (a k : String)
    (hk : k ≠ a) :
    dlookup (l.filter (fun kv => decide (kv.1 ≠ a))) k = dlookup l k := by
  induction l with
  | nil => simp
  | cons kv rest ih =>
    obtain ⟨k1, v1⟩ := kv
    by_cases h : k1 = a
    · subst h
      simpa [List.filter_cons, dlookup, Ne.symm hk] using ih
    · by_cases he : k1 = k
      · subst he
        simp [List.filter_cons, h, dlookup]
      · simpa [List.filter_cons, h, dlookup, he] using ih

theorem dlookup_of_mem_nodup {α : Type} (l : List (String × α))
    (kv : String × α) (hnd : (l.map Prod.fst).Nodup) (hm : kv ∈ l) :
    dlookup l kv.1 = some kv.2 := by
  induction l with
  | nil => cases hm
  | cons hd rest ih =>
    rcases List.mem_cons.mp hm with he | hm2
    · subst he; simp [dlookup]
    · have hne : hd.1 ≠ kv.1 := by
        intro e
        exact (List.nodup_cons.mp hnd).1 (e ▸ List.mem_map_of_mem Prod.fst hm2)
      simp [dlookup, hne, ih (List.nodup_cons.mp hnd).2 hm2]

theorem dlookup_replaceDirectory_hit (r : Record) (nd : String) (v : JVal)
    (h : dlookup r "directory" = some v) :
    dlookup (replaceDirectory r nd) "directory" = some (JVal.str nd) := by
  induction r with
  | nil => simp [dlookup] at h
  | cons kv rest ih =>
    obtain ⟨k1, v1⟩ := kv
    by_cases he : k1 = "directory"
    · subst he; simp [replaceDirectory, dlookup]
    · simp only [dlookup, if_neg he] at h
      have hcons : replaceDirectory ((k1, v1) :: rest) nd
          = (k1, v1) :: replaceDirectory rest nd := by
        simp [replaceDirectory, he]
      rw [hcons]
      simpa [dlookup, he] using ih h

theorem dlookup_replaceDirectory_miss (r : Record) (nd : String) (k : String)
    (hk : k ≠ "directory") :
    dlookup (replaceDirectory r nd) k = dlookup r k := by
  induction r with
  | nil => simp [replaceDirectory]
  | cons kv rest ih =>
    obtain ⟨k1, v1⟩ := kv
    by_cases he : k1 = "directory"
    · subst he; simpa [replaceDirectory, dlookup, Ne.symm hk] using ih
    · have hcons : replaceDirectory ((k1, v1) :: rest) nd
          = (k1, v1) :: replaceDirectory rest nd := by
        simp [replaceDirectory, he]
      rw [hcons]
      by_cases he2 : k1 = k
      · subst he2
        simp [dlookup]
      · simpa [dlookup, he2] using ih

/-! ### `rmStripLoop` lemmas -/

theorem rmStripLoop_ok (targets : List String) (b : String) (acc rest : Contents)
    (hshape : ∀ kv ∈ rest, kv.1 ∈ targets → ∃ m, kv.2 = JVal.obj m) :
    ∃ u, rmStripLoop targets b acc rest = .ok u := by
  induction rest generalizing acc with
  | nil => exact ⟨acc, rfl⟩
  | cons kv rest ih =>
    obtain ⟨key, info⟩ := kv
    by_cases h : key ∈ targets
    · obtain ⟨m, hm⟩ := hshape (key, info) (by simp) h
      subst hm
      simpa [rmStripLoop, h] using
        ih _ (fun kv2 hkv2 => hshape kv2 (by simp [hkv2]))
    · simpa [rmStripLoop, h] using
        ih acc (fun kv2 hkv2 => hshape kv2 (by simp [hkv2]))

theorem rmStripLoop_lookup_of_not_target (targets : List String) (b : String)
    (rest : Contents) (k : String) (hk : k ∉ targets) :
    ∀ (acc u : Contents), rmStripLoop targets b acc rest = .ok u →
      dlookup u k = dlookup acc k := by
  induction rest with
  | nil =>
    intro acc u hok
    cases hok
    rfl
  | cons kv rest ih =>
    intro acc u hok
    obtain ⟨key, info⟩ := kv
    by_cases h : key ∈ targets
    · cases info with
      | str s => simp [rmStripLoop, h] at hok
      | obj m =>
        have hne : k ≠ key := fun e => hk (e ▸ h)
        rw [ih _ u (by simpa [rmStripLoop, h] using hok)]
        exact dlookup_dinsert_ne _ _ _ _ hne
    · exact ih acc u (by simpa [rmStripLoop, h] using hok)

theorem rmStripLoop_lookup_of_absent (targets : List String) (b : String)
    (rest : Contents) (k : String) (hk : ∀ kv ∈ rest, kv.1 ≠ k) :
    ∀ (acc u : Contents), rmStripLoop targets b acc rest = .ok u →
      dlookup u k = dlookup acc k := by
  induction rest with
  | nil =>
    intro acc u hok
    cases hok
    rfl
  | cons kv rest ih =>
    intro acc u hok
    obtain ⟨key, info⟩ := kv
    have hkey : key ≠ k := hk (key, info) (by simp)
    by_cases h : key ∈ targets
    · cases info with
      | str s => simp [rmStripLoop, h] at hok
      | obj m =>
        rw [ih (fun kv2 hkv2 => hk kv2 (by simp [hkv2])) _ u
          (by simpa [rmStripLoop, h] using hok)]
        exact dlookup_dinsert_ne _ _ _ _ (Ne.symm hkey)
    · exact ih (fun kv2 hkv2 => hk kv2 (by simp [hkv2])) acc u
        (by simpa [rmStripLoop, h] using hok)

theorem rmStripLoop_lookup_of_target (targets : List String) (b : String)
    (rest : Contents) (k : String) (m : Record)
    (hk : k ∈ targets)
    (hnd : (rest.map Prod.fst).Nodup)
    (hfound : dlookup rest k = some (JVal.obj m)) :
    ∀ (acc u : Contents), rmStripLoop targets b acc rest = .ok u →
      dlookup u k = some (JVal.obj (m.filter (fun kv => decide (kv.1 ≠ b)))) := by
  induction rest with
  | nil => simp [dlookup] at hfound
  | cons kv rest ih =>
    intro acc u hok
    obtain ⟨key, info⟩ := kv
    by_cases he : key = k
    · subst he
      simp only [dlookup, if_pos rfl] at hfound
      obtain rfl : info = JVal.obj m := by
        injection hfound
      have habsent : ∀ kv ∈ rest, kv.1 ≠ key := by
        intro kv2 hkv2 e
        have hmem : key ∈ rest.map Prod.fst := e ▸ List.mem_map_of_mem Prod.fst hkv2
        exact (List.nodup_cons.mp hnd).1 hmem
      have hstep : rmStripLoop targets b acc ((key, JVal.obj m) :: rest)
          = rmStripLoop targets b
            (dinsert acc key (JVal.obj (m.filter (fun kv => decide (kv.1 ≠ b))))) rest := by
        simp [rmStripLoop, hk]
      rw [hstep] at hok
      rw [rmStripLoop_lookup_of_absent targets b rest key habsent _ u hok]
      exact dlookup_dinsert_self _ _ _
    · simp only [dlookup, if_neg he] at hfound
      have hnd2 := (List.nodup_cons.mp hnd).2
      by_cases h : key ∈ targets
      · cases info with
        | str s => simp [rmStripLoop, h] at hok
        | obj m2 =>
          exact ih hnd2 hfound _ u (by simpa [rmStripLoop, h] using hok)
      · exact ih hnd2 hfound acc u (by simpa [rmStripLoop, h] using hok)

/-! ### `makePaths` lemmas -/

theorem mem_addDir (fs : List Dir) (p q : Dir) :
    q ∈ addDir fs p ↔ q ∈ fs ∨ q = p := by
  by_cases h : p ∈ fs
  · simp only [addDir, if_pos h]
    exact ⟨Or.inl, fun hq => hq.elim id (fun e => e ▸ h)⟩
  · simp [addDir, if_neg h]

theorem mem_foldl_addDir (l : List Dir) (fs : List Dir) (q : Dir) :
    q ∈ l.foldl addDir fs ↔ q ∈ fs ∨ q ∈ l := by
  induction l generalizing fs with
  | nil => simp
  | cons p rest ih =>
    rw [List.foldl_cons, ih, mem_addDir]
    constructor
    · rintro ((h | h) | h)
      · exact Or.inl h
      · exact Or.inr (by simp [h])
      · exact Or.inr (by simp [h])
    · rintro (h | h)
      · exact Or.inl (Or.inl h)
      · rcases List.mem_cons.mp h with h | h
        · exact Or.inl (Or.inr h)
        · exact Or.inr h

theorem self_mem_dirPrefixes (p : Dir) (h : p ≠ []) : p ∈ dirPrefixes p := by
  have hlen : 0 < p.length := List.length_pos.mpr h
  refine List.mem_map.mpr ⟨p.length - 1, ?_, ?_⟩
  · simpa [List.mem_range] using Nat.sub_lt hlen Nat.one_pos
  · rw [Nat.sub_add_cancel hlen]
    exact List.take_length p

theorem isPrefix_of_mem_dirPrefixes (p q : Dir) (h : q ∈ dirPrefixes p) :
    q <+: p := by
  obtain ⟨i, _, rfl⟩ := List.mem_map.mp h
  exact List.take_prefix _ _

theorem makePathsLoop_ok (l : List Dir) (fs : List Dir)
    (hnew : ∀ p ∈ l, p ∉ fs)
    (hne : ∀ p ∈ l, p ≠ [])
    (hlen : ∀ p ∈ l, ∀ q ∈ l, p.length = q.length)
    (hnd : l.Nodup) :
    ∃ fs1, makePathsLoop fs l = .ok fs1 ∧
      (∀ q ∈ fs, q ∈ fs1) ∧
      (∀ p ∈ l, ∀ q ∈ dirPrefixes p, q ∈ fs1) := by
  induction l generalizing fs with
  | nil => exact ⟨fs, rfl, fun q hq => hq, by simp⟩
  | cons p rest ih =>
    have hp : p ∉ fs := hnew p (by simp)
    have hmk : mkdirParents fs p = .ok ((dirPrefixes p).foldl addDir fs) := by
      simp [mkdirParents, hp]
    have hsub : ∀ q ∈ fs, q ∈ (dirPrefixes p).foldl addDir fs :=
      fun q hq => (mem_foldl_addDir _ _ _).mpr (Or.inl hq)
    have hpre : ∀ q ∈ dirPrefixes p, q ∈ (dirPrefixes p).foldl addDir fs :=
      fun q hq => (mem_foldl_addDir _ _ _).mpr (Or.inr hq)
    have hnew1 : ∀ r ∈ rest, r ∉ (dirPrefixes p).foldl addDir fs := by
      intro r hr hmem
      rcases (mem_foldl_addDir _ _ _).mp hmem with h1 | h2
      · exact hnew r (by simp [hr]) h1
      · have hpref := isPrefix_of_mem_dirPrefixes p r h2
        have : r = p := hpref.eq_of_length
          (hlen r (by simp [hr]) p (by simp))
        exact (List.nodup_cons.mp hnd).1 (this ▸ hr)
    obtain ⟨fs2, hloop, hsub2, hpre2⟩ := ih _ hnew1
      (fun q hq => hne q (by simp [hq]))
      (fun q hq r hr => hlen q (by simp [hq]) r (by simp [hr]))
      (List.nodup_cons.mp hnd).2
    refine ⟨fs2, by simp [makePathsLoop, hmk, hloop], fun q hq => hsub2 q (hsub q hq), ?_⟩
    intro p1 hp1 q hq
    rcases List.mem_cons.mp hp1 with he | hm
    · exact hsub2 q (hpre q (he ▸ hq))
    · exact hpre2 p1 hm q hq

/-! ### Claim theorems -/

/-- Claim C1: constructing a `RunLog` unconditionally rewrites its backing
file with only the supplied common key-value attributes, so re-opening an
existing project (same root, no other parameters) leaves the log file
holding exactly the two common attributes `config` and `output` — every
previously recorded run entry is erased. -/
theorem runlog_init_rewrites_on_reopen (w : World) (root : String) (init : ProjInit)
    (hroot : root ∈ w.dirs)
    (hdb : dlookup w.database root = some init) :
    logFileAfterInit w root none (pjoin root init.logname) = some (commonContents init) ∧
    (commonContents init).map Prod.fst = ["config", "output"] := by
  have hattrs : initAttrs w root none = .ok (w, init) := by
    simp [initAttrs, hroot, hdb]
  constructor
  · simp [logFileAfterInit, projectInit, hattrs, runLogInit, dlookup_dinsert_self]
  · rfl

/-- Witness for C1: a project at `/p` whose log already records `run1`;
re-opening it leaves a log with only the `config` and `output` keys. -/
theorem runlog_init_rewrites_on_reopen_witness :
    logFileAfterInit
      ⟨["/p"],
       [("/p/runs.json",
         [("config", JVal.str "eprem.cfg"), ("output", JVal.str "eprem.log"),
          ("run1", JVal.obj [("directory", JVal.str "/p/runs/run1")])])],
       [("/p", ⟨[], "eprem.cfg", "eprem.log", "runs", "runs"⟩)]⟩
      "/p" none
      (pjoin "/p" (ProjInit.logname ⟨[], "eprem.cfg", "eprem.log", "runs", "runs"⟩))
      = some (commonContents ⟨[], "eprem.cfg", "eprem.log", "runs", "runs"⟩) ∧
    (commonContents (⟨[], "eprem.cfg", "eprem.log", "runs", "runs"⟩ : ProjInit)).map
      Prod.fst = ["config", "output"] :=
  runlog_init_rewrites_on_reopen _ _ _ (by simp) (by simp [dlookup])

/-- Claim C2, falsified by the code: `RunLog.rm` with every target known
and no `branch` argument does not succeed — the unconditional
`if branch not in self._branches` check raises `LogKeyError` for the
default `branch=None` on every input. -/
theorem rm_without_branch_always_raises :
    rm ["a"] [("r", JVal.obj [])] ["r"] none
      = .error (.logKeyError "Cannot remove runs from unknown branch None") := rfl

/-- Claim C3, falsified by the code: `Project.rm` on a branched project
deletes the matched run directory, then calls `self.log.rm(*targets,
branch)` with `branch` passed positionally; `RunLog.rm` treats the
branch name as one more target and raises `LogKeyError`, leaving the
matched run still recorded in the log. -/
theorem project_rm_deletes_dirs_then_raises :
    projectRm
      ⟨["a"], "proj", [("a", "r1")],
       [("config", JVal.str "eprem.cfg"), ("r1", JVal.obj [])]⟩ "r1"
      = (⟨["a"], "proj", [],
          [("config", JVal.str "eprem.cfg"), ("r1", JVal.obj [])]⟩,
         .error (.logKeyError "Cannot remove unknown run a")) := rfl

/-- Claim C4, falsified by the code: `Project.mv` renames the run
directory, then calls `self.log.mv(source, target, branch)` with three
arguments although `RunLog.mv` accepts only two, so Python raises
`TypeError`; the log is never updated — the source stays a key and the
target never becomes one. -/
theorem project_mv_renames_dirs_then_type_error :
    projectMv ⟨["a"], "proj", [("a", "r1")], [("r1", JVal.obj [])]⟩ "r1" "r2"
      = (⟨["a"], "proj", [("a", "r2")], [("r1", JVal.obj [])]⟩,
         .error (.typeError "mv() takes 3 positional arguments but 4 were given")) := rfl

/-- Counterexample to claim C6: creating a project on a fresh root leaves
a log file that holds the two common attributes `config` and `output`,
not an empty mapping. -/
theorem fresh_log_not_empty :
    logFileAfterInit ⟨[], [], []⟩ "/p" none (pjoin "/p" "runs.json")
      = some [("config", JVal.str "eprem.cfg"), ("output", JVal.str "eprem.log")] ∧
    ([("config", JVal.str "eprem.cfg"), ("output", JVal.str "eprem.log")] : Contents)
      ≠ [] := ⟨rfl, by simp⟩

/-- Claim C6 as amended: immediately after a project is created on a
fresh root, its log file exists and contains exactly the two common
attributes `config` and `output` (the defaults `eprem.cfg` and
`eprem.log` when no parameters are supplied) and no run entries. -/
theorem fresh_log_common_attrs (w : World) (root : String)
    (hroot : root ∉ w.dirs) :
    logFileAfterInit w root none (pjoin root "runs.json")
      = some [("config", JVal.str "eprem.cfg"), ("output", JVal.str "eprem.log")] ∧
    ([("config", JVal.str "eprem.cfg"), ("output", JVal.str "eprem.log")] : Contents).map
      Prod.fst = ["config", "output"] := by
  have hlog : pjoin root (ProjInit.logname (mkInit {})) = pjoin root "runs.json" := rfl
  have hcc : commonContents (mkInit {})
      = [("config", JVal.str "eprem.cfg"), ("output", JVal.str "eprem.log")] := rfl
  constructor
  · simp [logFileAfterInit, projectInit, initAttrs, hroot, runLogInit, hlog, hcc,
      dlookup_dinsert_self]
  · rfl

/-- Witness for the amended C6: creating `/p` in an empty world. -/
theorem fresh_log_common_attrs_witness :
    logFileAfterInit ⟨[], [], []⟩ "/p" none (pjoin "/p" "runs.json")
      = some [("config", JVal.str "eprem.cfg"), ("output", JVal.str "eprem.log")] ∧
    ([("config", JVal.str "eprem.cfg"), ("output", JVal.str "eprem.log")] : Contents).map
      Prod.fst = ["config", "output"] :=
  fresh_log_common_attrs ⟨[], [], []⟩ "/p" (by simp)

/-- Counterexample to claim C7: `RunLog.append` on an unknown target
raises `LogKeyError`, which is not an instance of the `RunKeyError`
class (`LogKeyError` extends `KeyError`; `RunKeyError` extends
`Exception`). -/
theorem append_error_class_counterexample :
    append [] "run1" "k" (JVal.str "v")
      = .error (.logKeyError ("Cannot append to unknown run " ++ "run1")) ∧
    PyError.isRunKeyErrorClass
      (.logKeyError ("Cannot append to unknown run " ++ "run1")) = false :=
  ⟨rfl, rfl⟩

/-- Claim C7 as amended: `RunLog.append(target, key, metadata)` with
`target` not a key of the log raises a `LogKeyError`-class error (not
`RunKeyError`); with `target` a known run whose record is a mapping, it
returns normally and the resulting log maps `target` to its former
record extended with `key` bound to `metadata`, every other run's record
unchanged. -/
theorem append_log_key_error_and_extends
    (contents : Contents) (target key : String) (metadata : JVal) :
    (dlookup contents target = none →
      append contents target key metadata
        = .error (.logKeyError ("Cannot append to unknown run " ++ target)) ∧
      PyError.isRunKeyErrorClass
        (.logKeyError ("Cannot append to unknown run " ++ target)) = false) ∧
    (∀ record : Record, dlookup contents target = some (JVal.obj record) →
      append contents target key metadata
        = .ok (dinsert contents target (JVal.obj (dinsert record key metadata))) ∧
      dlookup (dinsert contents target (JVal.obj (dinsert record key metadata))) target
        = some (JVal.obj (dinsert record key metadata)) ∧
      ∀ k, k ≠ target →
        dlookup (dinsert contents target (JVal.obj (dinsert record key metadata))) k
          = dlookup contents k) := by
  constructor
  · intro h
    exact ⟨by simp [append, h], rfl⟩
  · intro record h
    refine ⟨by simp [append, h], dlookup_dinsert_self _ _ _, ?_⟩
    intro k hk
    exact dlookup_dinsert_ne _ _ _ _ hk

/-- Witness for the amended C7: appending to the known run `r` of a
one-entry log extends its record with the new key. -/
theorem append_log_key_error_and_extends_witness :
    append [("r", JVal.obj [])] "r" "k" (JVal.str "v")
      = .ok [("r", JVal.obj [("k", JVal.str "v")])] :=
  ((append_log_key_error_and_extends [("r", JVal.obj [])] "r" "k" (JVal.str "v")).2
    [] rfl).1

/-- Claim C8: `RunLog.append` on a target absent from the log raises the
"unknown run" `LogKeyError` before `self.dump` runs, so the log file's
contents — and, `json.dump` being deterministic, its bytes — are
identical before and after the call. -/
theorem append_unknown_no_write
    (contents : Contents) (target key : String) (metadata : JVal)
    (h : dlookup contents target = none) :
    append contents target key metadata
      = .error (.logKeyError ("Cannot append to unknown run " ++ target)) ∧
    fileAfterAppend contents target key metadata = contents := by
  refine ⟨by simp [append, h], ?_⟩
  simp [fileAfterAppend, append, h]

/-- Witness for C8: appending to the unknown run `other` fails and
leaves the file contents untouched. -/
theorem append_unknown_no_write_witness :
    append [("r", JVal.obj [])] "other" "k" (JVal.str "v")
      = .error (.logKeyError ("Cannot append to unknown run " ++ "other")) ∧
    fileAfterAppend [("r", JVal.obj [])] "other" "k" (JVal.str "v")
      = [("r", JVal.obj [])] :=
  append_unknown_no_write [("r", JVal.obj [])] "other" "k" (JVal.str "v") rfl

/-- Counterexample to claim C5: `RunLog.rm("r", branch="a")` on a log
recording `r` returns normally, yet `r` remains a key of the resulting
log — the strip loop wrote the branch-stripped record back under `r`
after the top-level deletion. -/
theorem rm_branch_retains_counterexample :
    rm ["a"] [("r", JVal.obj [("a", JVal.obj []), ("x", JVal.str "y")])] ["r"] (some "a")
      = .ok [("r", JVal.obj [("x", JVal.str "y")])] ∧
    dlookup [("r", JVal.obj [("x", JVal.str "y")])] "r" ≠ none :=
  ⟨rfl, by simp [dlookup]⟩

/-- Claim C5 as amended: `RunLog.rm` never returns normally without a
branch argument, and when it returns normally with a configured nonempty
branch `b` and every target known, the targets are not deleted — each
target remains a top-level key, mapped to its pre-removal record with
branch `b`'s sub-key stripped, while entries for non-targets are
unchanged. -/
theorem rm_with_branch_strips_and_retains
    (branches : List String) (current : Contents) (targets : List String) (b : String)
    (hb : b ∈ branches) (hbne : b ≠ "")
    (hnd : (current.map Prod.fst).Nodup)
    (hknown : ∀ t ∈ targets, ∃ m : Record, dlookup current t = some (JVal.obj m)) :
    (∃ u, rm branches current targets (some b) = .ok u ∧
      (∀ t m, t ∈ targets → dlookup current t = some (JVal.obj m) →
        dlookup u t = some (JVal.obj (m.filter (fun kv => decide (kv.1 ≠ b))))) ∧
      (∀ k, k ∉ targets → dlookup u k = dlookup current k)) ∧
    (∀ u, rm branches current targets none ≠ .ok u) := by
  have hfind : targets.find? (fun t => (dlookup current t).isNone) = none := by
    apply List.find?_eq_none.mpr
    intro t ht
    obtain ⟨m, hm⟩ := hknown t ht
    simp [hm]
  constructor
  · have hrm : rm branches current targets (some b)
        = rmBody branches current targets (some b) := by
      simp only [rm, hfind]
    have hbody : rmBody branches current targets (some b)
        = rmStripLoop targets b
          (current.filter (fun kv => decide (kv.1 ∉ targets))) current := by
      simp [rmBody, hb, hbne]
    have hshape : ∀ kv ∈ current, kv.1 ∈ targets → ∃ m, kv.2 = JVal.obj m := by
      intro kv hkv hmem
      obtain ⟨m, hm⟩ := hknown kv.1 hmem
      rw [dlookup_of_mem_nodup current kv hnd hkv] at hm
      exact ⟨m, by injection hm⟩
    obtain ⟨u, hu⟩ := rmStripLoop_ok targets b
      (current.filter (fun kv => decide (kv.1 ∉ targets))) current hshape
    refine ⟨u, by rw [hrm, hbody]; exact hu, ?_, ?_⟩
    · intro t m ht hm
      exact rmStripLoop_lookup_of_target targets b current t m ht hnd hm _ u hu
    · intro k hk
      rw [rmStripLoop_lookup_of_not_target targets b current k hk _ u hu]
      exact dlookup_filter_out_not_mem current targets k hk
  · intro u hu2
    unfold rm at hu2
    cases hf : targets.find? (fun t => (dlookup current t).isNone) with
    | none =>
      rw [hf] at hu2
      simp [rmBody] at hu2
    | some t =>
      rw [hf] at hu2
      by_cases ht : t = ""
      · simp [ht, rmBody] at hu2
      · simp [ht, rmBody] at hu2

/-- Witness for the amended C5: removing the run `r` with the configured
branch `a` returns normally, keeps `r` as a key with the `a` sub-record
stripped, and the same call without a branch cannot return normally. -/
theorem rm_with_branch_strips_and_retains_witness :
    (∃ u, rm ["a"] [("r", JVal.obj [("a", JVal.obj []), ("x", JVal.str "y")])]
        ["r"] (some "a") = .ok u ∧
      (∀ t m, t ∈ ["r"] →
        dlookup [("r", JVal.obj [("a", JVal.obj []), ("x", JVal.str "y")])] t
          = some (JVal.obj m) →
        dlookup u t = some (JVal.obj (m.filter (fun kv => decide (kv.1 ≠ "a"))))) ∧
      (∀ k, k ∉ ["r"] →
        dlookup u k
          = dlookup [("r", JVal.obj [("a", JVal.obj []), ("x", JVal.str "y")])] k)) ∧
    (∀ u, rm ["a"] [("r", JVal.obj [("a", JVal.obj []), ("x", JVal.str "y")])]
        ["r"] none ≠ .ok u) :=
  rm_with_branch_strips_and_retains ["a"]
    [("r", JVal.obj [("a", JVal.obj []), ("x", JVal.str "y")])] ["r"] "a"
    (by simp) (by decide) (by simp)
    (by intro t ht
        rw [List.mem_singleton] at ht
        subst ht
        exact ⟨_, rfl⟩)

/-- Claim C9: on an unbranched log where run `a` carries a `directory`
path and run `b` is absent, `RunLog.mv(a, b)` drops key `a` and stores
`a`'s former record under `b`, with only the `directory` value rewritten:
its segments become the old segments minus the final one plus `b` — the
final path segment is replaced by `b` and the parent directory is
unchanged. -/
theorem mv_unbranched_renames
    (current : Contents) (a b d : String) (record : Record)
    (ha : dlookup current a = some (JVal.obj record))
    (hd : dlookup record "directory" = some (JVal.str d))
    (hb : dlookup current b = none) :
    ∃ u, mv [] current a b = .ok u ∧
      dlookup u a = none ∧
      dlookup u b = some (JVal.obj (replaceDirectory record (parentJoin d b))) ∧
      (∀ k, k ≠ a → k ≠ b → dlookup u k = dlookup current k) ∧
      dlookup (replaceDirectory record (parentJoin d b)) "directory"
        = some (JVal.str (parentJoin d b)) ∧
      (∀ k, k ≠ "directory" →
        dlookup (replaceDirectory record (parentJoin d b)) k = dlookup record k) ∧
      parentJoin d b = String.intercalate "/" ((pathSegments d).dropLast ++ [b]) ∧
      ((pathSegments d).dropLast ++ [b]).getLast? = some b ∧
      ((pathSegments d).dropLast ++ [b]).dropLast = (pathSegments d).dropLast := by
  have hab : a ≠ b := by
    intro e
    rw [e, hb] at ha
    cases ha
  have hmv : mv [] current a b
      = .ok (dinsert (current.filter (fun kv => decide (kv.1 ≠ a))) b
          (JVal.obj (replaceDirectory record (parentJoin d b)))) := by
    simp [mv, ha, hd]
  refine ⟨_, hmv, ?_, dlookup_dinsert_self _ _ _, ?_, ?_, ?_, rfl, ?_, ?_⟩
  · rw [dlookup_dinsert_ne _ _ _ _ hab]
    exact dlookup_filter_ne_self current a
  · intro k hka hkb
    rw [dlookup_dinsert_ne _ _ _ _ hkb]
    exact dlookup_filter_ne_other current a k hka
  · exact dlookup_replaceDirectory_hit record _ _ hd
  · intro k hk
    exact dlookup_replaceDirectory_miss record _ k hk
  · simp
  · simp

/-- Witness for C9: renaming `r1` to `r2` in a one-run unbranched log
whose directory is `/proj/runs/r1`. -/
theorem mv_unbranched_renames_witness :
    ∃ u, mv []
        [("r1", JVal.obj [("directory", JVal.str "/proj/runs/r1"), ("n", JVal.str "5")])]
        "r1" "r2" = .ok u ∧
      dlookup u "r1" = none ∧
      dlookup u "r2" = some (JVal.obj (replaceDirectory
        [("directory", JVal.str "/proj/runs/r1"), ("n", JVal.str "5")]
        (parentJoin "/proj/runs/r1" "r2"))) ∧
      (∀ k, k ≠ "r1" → k ≠ "r2" →
        dlookup u k = dlookup
          [("r1", JVal.obj
            [("directory", JVal.str "/proj/runs/r1"), ("n", JVal.str "5")])] k) ∧
      dlookup (replaceDirectory
          [("directory", JVal.str "/proj/runs/r1"), ("n", JVal.str "5")]
          (parentJoin "/proj/runs/r1" "r2")) "directory"
        = some (JVal.str (parentJoin "/proj/runs/r1" "r2")) ∧
      (∀ k, k ≠ "directory" →
        dlookup (replaceDirectory
            [("directory", JVal.str "/proj/runs/r1"), ("n", JVal.str "5")]
            (parentJoin "/proj/runs/r1" "r2")) k
          = dlookup [("directory", JVal.str "/proj/runs/r1"), ("n", JVal.str "5")] k) ∧
      parentJoin "/proj/runs/r1" "r2"
        = String.intercalate "/" ((pathSegments "/proj/runs/r1").dropLast ++ ["r2"]) ∧
      ((pathSegments "/proj/runs/r1").dropLast ++ ["r2"]).getLast? = some "r2" ∧
      ((pathSegments "/proj/runs/r1").dropLast ++ ["r2"]).dropLast
        = (pathSegments "/proj/runs/r1").dropLast :=
  mv_unbranched_renames _ "r1" "r2" "/proj/runs/r1" _ rfl rfl rfl

/-- Claim C10: `Project._make_paths` checks every computed target path
for existence before creating any of them.  If some target already
exists, it fails with a `PathOperationError` and creates nothing; if no
target exists, it creates every target directory together with all
intermediate parents. -/
theorem make_paths_all_or_nothing (fs rundirs : List Dir) (name : String) :
    ((∃ p ∈ rundirs.map (fun r => r ++ [name]), p ∈ fs) →
      (∃ msg, makePaths fs rundirs name = .error (.pathOperationError msg)) ∧
      fsAfterMakePaths fs rundirs name = fs) ∧
    ((∀ p ∈ rundirs.map (fun r => r ++ [name]), p ∉ fs) →
      (∀ r1 ∈ rundirs, ∀ r2 ∈ rundirs, r1.length = r2.length) →
      rundirs.Nodup →
      ∃ fs1, makePaths fs rundirs name = .ok fs1 ∧
        (∀ p ∈ rundirs.map (fun r => r ++ [name]), p ∈ fs1 ∧
          ∀ q ∈ dirPrefixes p, q ∈ fs1)) := by
  constructor
  · rintro ⟨p, hp, hpfs⟩
    cases hf : (rundirs.map (fun r => r ++ [name])).find? (fun q => decide (q ∈ fs)) with
    | none =>
      exfalso
      have h1 := List.find?_eq_none.mp hf p hp
      simp at h1
      exact h1 hpfs
    | some p1 =>
      constructor
      · refine ⟨"Cannot create " ++ String.intercalate "/" p1 ++ ": already exists", ?_⟩
        simp [makePaths, makePathsCheck, hf]
      · simp [fsAfterMakePaths, makePaths, makePathsCheck, hf]
  · intro hnew hlen hnd
    have hf : (rundirs.map (fun r => r ++ [name])).find? (fun q => decide (q ∈ fs))
        = none := by
      apply List.find?_eq_none.mpr
      intro p hp
      simpa using hnew p hp
    have hinj : Function.Injective (fun r : Dir => r ++ [name]) := by
      intro r1 r2 h
      have h2 := congrArg List.dropLast h
      simpa using h2
    obtain ⟨fs1, hloop, _, hpre⟩ := makePathsLoop_ok
      (rundirs.map (fun r => r ++ [name])) fs
      (fun p hp => hnew p hp)
      (by rintro p hp
          obtain ⟨r, hr, rfl⟩ := List.mem_map.mp hp
          simp)
      (by rintro p hp q hq
          obtain ⟨r1, hr1, rfl⟩ := List.mem_map.mp hp
          obtain ⟨r2, hr2, rfl⟩ := List.mem_map.mp hq
          simp [hlen r1 hr1 r2 hr2])
      (hnd.map hinj)
    refine ⟨fs1, ?_, ?_⟩
    · simp [makePaths, makePathsCheck, hf, hloop]
    · intro p hp
      have hpne : p ≠ [] := by
        obtain ⟨r, hr, rfl⟩ := List.mem_map.mp hp
        simp
      exact ⟨hpre p hp p (self_mem_dirPrefixes p hpne), hpre p hp⟩

/-- Witness for C10: with `proj/a/runs/r1` pre-existing the whole batch
fails and nothing is created; on an empty filesystem both targets and
all their parents are created. -/
theorem make_paths_all_or_nothing_witness :
    ((∃ msg, makePaths [["proj", "a", "runs", "r1"]]
        [["proj", "a", "runs"], ["proj", "b", "runs"]] "r1"
        = .error (.pathOperationError msg)) ∧
      fsAfterMakePaths [["proj", "a", "runs", "r1"]]
        [["proj", "a", "runs"], ["proj", "b", "runs"]] "r1"
        = [["proj", "a", "runs", "r1"]]) ∧
    (∃ fs1, makePaths [] [["proj", "a", "runs"], ["proj", "b", "runs"]] "r1"
        = .ok fs1 ∧
      (∀ p ∈ [["proj", "a", "runs"], ["proj", "b", "runs"]].map (fun r => r ++ ["r1"]),
        p ∈ fs1 ∧ ∀ q ∈ dirPrefixes p, q ∈ fs1)) := by
  constructor
  · exact (make_paths_all_or_nothing [["proj", "a", "runs", "r1"]]
      [["proj", "a", "runs"], ["proj", "b", "runs"]] "r1").1
      ⟨["proj", "a", "runs", "r1"], by simp, by simp⟩
  · exact (make_paths_all_or_nothing []
      [["proj", "a", "runs"], ["proj", "b", "runs"]] "r1").2
      (by simp) (by decide) (by decide)

end Eprem
